import Mathlib

/-!
Verification of the `rust-ethereum-abi` core against its specification.

The development shallowly embeds the code of `src/abi.rs` and
`src/params.rs`: Rust byte slices become `List Nat` (each element < 256),
machine integers become `Nat`, fallible operations return `Except`, and a
Rust panic is modelled by the distinguished error `RErr.panic`.
Components external to those two files (the Keccak-256 primitive, the
canonical string form of types and the value codec of `types.rs` /
`values.rs`) are either implemented bit-exactly (Keccak) or modelled from
the specification, as marked in their doc comments.
-/

namespace EthAbi

/-! ## Keccak-256 (bit-exact implementation of the external hash primitive)

Keccak with rate 1088 and the original `0x01` domain padding, as used by
Ethereum (`tiny_keccak::Keccak::v256`). Lanes are `Nat`s kept below `2^64`
by explicit masking. -/

/-- The 64-bit all-ones mask. -/
def mask64 : Nat := 2 ^ 64 - 1

/-- Rotate a 64-bit lane left by `n` bits. -/
def rotl64 (x n : Nat) : Nat :=
  ((x <<< n) ||| (x >>> (64 - n))) % 2 ^ 64

/-- Keccak round constants, written in decimal, one chunk per four rounds. -/
def keccakRC : List Nat :=
  [1, 32898, 9223372036854808714, 9223372039002292224] ++
  [32907, 2147483649, 9223372039002292353, 9223372036854808585] ++
  [138, 136, 2147516425, 2147483658] ++
  [2147516555, 9223372036854775947, 9223372036854808713, 9223372036854808579] ++
  [9223372036854808578, 9223372036854775936, 32778, 9223372039002259466] ++
  [9223372039002292353, 9223372036854808704, 2147483649, 9223372039002292232]

/-- Rho rotation offsets, indexed by flat lane index `x + 5*y`, one chunk
per plane. -/
def rhoOffsets : List Nat :=
  [0, 1, 62, 28, 27] ++
  [36, 44, 6, 55, 20] ++
  [3, 10, 43, 25, 39] ++
  [41, 45, 15, 21, 8] ++
  [18, 2, 61, 56, 14]

/-- One Keccak-f[1600] round on a 25-lane state (flat index `x + 5*y`). -/
def keccakRound (st : List Nat) (rc : Nat) : List Nat :=
  let a := fun i => st.getD i 0
  let c := (List.range 5).map
    (fun x => a x ^^^ a (x + 5) ^^^ a (x + 10) ^^^ a (x + 15) ^^^ a (x + 20))
  let d := (List.range 5).map
    (fun x => c.getD ((x + 4) % 5) 0 ^^^ rotl64 (c.getD ((x + 1) % 5) 0) 1)
  let st1 := (List.range 25).map (fun i => a i ^^^ d.getD (i % 5) 0)
  let b := (List.range 25).map (fun i =>
    let sx := (i % 5 + 3 * (i / 5)) % 5
    let sy := i % 5
    rotl64 (st1.getD (sx + 5 * sy) 0) (rhoOffsets.getD (sx + 5 * sy) 0))
  let st2 := (List.range 25).map (fun i =>
    let x := i % 5
    let y := i / 5
    b.getD i 0 ^^^ (((b.getD ((x + 1) % 5 + 5 * y) 0) ^^^ mask64) &&&
      b.getD ((x + 2) % 5 + 5 * y) 0))
  (List.range 25).map (fun i => if i = 0 then st2.getD 0 0 ^^^ rc else st2.getD i 0)

/-- The full Keccak-f[1600] permutation: 24 rounds. -/
def keccakP (st : List Nat) : List Nat :=
  keccakRC.foldl keccakRound st

/-- Interpret a little-endian byte list as a `Nat`. -/
def leBytesToNat : List Nat → Nat
  | [] => 0
  | b :: bs => b % 256 + 256 * leBytesToNat bs

/-- The `k` low bytes of `n`, little-endian. -/
def natToLeBytes : Nat → Nat → List Nat
  | 0, _ => []
  | k + 1, n => n % 256 :: natToLeBytes k (n / 256)

/-- Keccak `pad10*1` padding with the `0x01` domain byte, to rate 136. -/
def keccakPad (msg : List Nat) : List Nat :=
  let padLen := 136 - msg.length % 136
  if padLen = 1 then msg ++ [0x81]
  else msg ++ [0x01] ++ List.replicate (padLen - 2) 0 ++ [0x80]

/-- XOR one 136-byte block into the state and permute. -/
def absorbBlock (st : List Nat) (block : List Nat) : List Nat :=
  let lanes := (List.range 17).map (fun i => leBytesToNat ((block.drop (8 * i)).take 8))
  keccakP ((List.range 25).map (fun i => st.getD i 0 ^^^ lanes.getD i 0))

/-- Absorb `k` rate-sized blocks of `msg` into the state. -/
def absorbBlocks : Nat → List Nat → List Nat → List Nat
  | 0, st, _ => st
  | k + 1, st, msg => absorbBlocks k (absorbBlock st (msg.take 136)) (msg.drop 136)

/-- Keccak-256 of a byte list: 32-byte digest. -/
def keccak256 (msg : List Nat) : List Nat :=
  let padded := keccakPad msg
  let st := absorbBlocks (padded.length / 136) (List.replicate 25 0) padded
  ((List.range 4).map (fun i => natToLeBytes 8 (st.getD i 0))).flatten

/-! ## Data model -/

/-- The ABI type grammar: the `Type` enum of `types.rs`, reconstructed from
its uses in `src/abi.rs` / `src/params.rs` and §3.1 of the spec. -/
inductive Type' : Type where
  | Uint (bits : Nat)
  | Int (bits : Nat)
  | Address : Type'
  | Bool : Type'
  | FixedBytes (n : Nat)
  | Bytes : Type'
  | String : Type'
  | Array (elem : Type')
  | FixedArray (elem : Type') (n : Nat)
  | Tuple (fields : List (String × Type'))

mutual

/-- Modelled from the spec: the canonical string form `Type::to_string` lives
in `types.rs`, which is not part of the two given source files. §3.1/§4.1:
atoms render with their sizes, array suffixes append `[]` or `[n]`, and a
tuple renders as the parenthesized comma-joined forms of its field types with
field names elided. -/
def Type'.to_string : Type' → String
  | .Uint bits => "uint" ++ toString bits
  | .Int bits => "int" ++ toString bits
  | .Address => "address"
  | .Bool => "bool"
  | .FixedBytes n => "bytes" ++ toString n
  | .Bytes => "bytes"
  | .String => "string"
  | .Array t => t.to_string ++ "[]"
  | .FixedArray t n => t.to_string ++ "[" ++ toString n ++ "]"
  | .Tuple fields => "(" ++ String.intercalate "," (tupleTypeStrings fields) ++ ")"

/-- Canonical forms of a tuple's field types, in order. -/
def tupleTypeStrings : List (String × Type') → List String
  | [] => []
  | f :: fs => f.2.to_string :: tupleTypeStrings fs

end

/-- A function/event/error parameter (`Param` in `src/params.rs`). -/
structure Param where
  name : String
  type_ : Type'
  indexed : Option Bool

/-- State mutability values (`StateMutability` in `src/abi.rs`). -/
inductive StateMutability : Type where
  | Pure
  | View
  | NonPayable
  | Payable
deriving DecidableEq

/-- Contract function definition (`Function` in `src/abi.rs`). -/
structure Function where
  name : String
  inputs : List Param
  outputs : List Param
  state_mutability : StateMutability

/-- The bytes of a string (`str::as_bytes`; all inputs used here are ASCII). -/
def strBytes (s : String) : List Nat := s.data.map Char.toNat

/-- Embeds `Function::signature` (src/abi.rs:212-222): name followed by the
parenthesized comma-joined canonical forms of the input types. -/
def Function.signature (f : Function) : String :=
  f.name ++ "(" ++ String.intercalate "," (f.inputs.map (fun p => p.type_.to_string)) ++ ")"

/-- Embeds `Function::method_id` (src/abi.rs:197-209): first 4 bytes of the
Keccak-256 hash of the signature. -/
def Function.method_id (f : Function) : List Nat :=
  (keccak256 (strBytes f.signature)).take 4

/-- Contract event definition (`Event`; its struct literal in
`src/abi.rs` shows the fields `name`, `inputs`, `anonymous`). -/
structure Event where
  name : String
  inputs : List Param
  anonymous : Bool

/-- Contract error definition (`Error`; struct literal in `src/abi.rs`). -/
structure Error' where
  name : String
  inputs : List Param

/-- Contract constructor definition (`Constructor` in `src/abi.rs`). -/
structure Constructor where
  inputs : List Param
  state_mutability : StateMutability

/-- Contract ABI (`Abi` in `src/abi.rs`). -/
structure Abi where
  constructor : Option Constructor
  functions : List Function
  events : List Event
  errors : List Error'
  has_receive : Bool
  has_fallback : Bool

/-- Modelled from the spec: decoded values, §3.2. The `Value` enum lives in
`values.rs`, which is not among the given source files; only its shape
matters here, since the value codec itself is also external. -/
inductive Value : Type where
  | Uint (u : Nat) (bits : Nat)
  | Int (i : Int) (bits : Nat)
  | Address (bytes : List Nat)
  | Bool (b : Bool)
  | FixedBytes (bytes : List Nat)
  | Bytes (bytes : List Nat)
  | String (s : String)
  | Array (values : List Value) (elem : Type')
  | FixedArray (values : List Value) (elem : Type')
  | Tuple (fields : List (String × Value))

/-- A value codec, standing in for `Value::decode_from_slice` of the missing
`values.rs`: raw bytes and a type list to decoded values, or an error. The
dispatch claims hold for every such codec. -/
def Codec : Type := List Nat → List Type' → Except String (List Value)

/-- Runtime outcome of a fallible Rust operation: an error value carrying
its message, or a panic. -/
inductive RErr : Type where
  | err (msg : String)
  | panic
deriving DecidableEq

/-- Rust slice indexing `xs[lo..hi]`: panics (here: `none`) when the range
is out of bounds. -/
def sliceRange (xs : List Nat) (lo hi : Nat) : Option (List Nat) :=
  if lo ≤ hi ∧ hi ≤ xs.length then some ((xs.drop lo).take (hi - lo)) else none

/-- The selector scan of `Abi::decode_input_from_slice` (src/abi.rs:44-48):
`functions.iter().find(|f| f.method_id() == input[0..4])`. The closure
indexes `input[0..4]`, so each probe panics when the input is shorter than
4 bytes; with no functions the closure never runs. -/
def findFunction : List Function → List Nat → Except RErr (Option Function)
  | [], _ => .ok none
  | f :: fs, input =>
    match sliceRange input 0 4 with
    | none => .error .panic
    | some sel => if f.method_id = sel then .ok (some f) else findFunction fs input

/-- Embeds `Function::decode_input_from_slice` (src/abi.rs:225-239), with the
external `Value::decode_from_slice` passed in as `dec`: decode the bytes
against the input types and zip the inputs with the decoded values. -/
def Function.decode_input_from_slice (f : Function) (dec : Codec) (input : List Nat) :
    Except String (List (Param × Value)) :=
  (dec input (f.inputs.map (fun p => p.type_))).map (fun vs => f.inputs.zip vs)

/-- Embeds `Abi::decode_input_from_slice` (src/abi.rs:40-53): scan for the function
whose selector matches, report "ABI function not found" when none does, then
decode `input[4..]` against the match. -/
def Abi.decode_input_from_slice (abi : Abi) (dec : Codec) (input : List Nat) :
    Except RErr (Function × List (Param × Value)) :=
  match findFunction abi.functions input with
  | .error e => .error e
  | .ok none => .error (.err "ABI function not found")
  | .ok (some f) =>
    match f.decode_input_from_slice dec (input.drop 4) with
    | .error m => .error (.err m)
    | .ok dp => .ok (f, dp)

/-- Modelled from the spec: `Event::topic` lives outside the given source
files; §4.5 defines it as the full 32-byte Keccak-256 hash of the event's
canonical signature `name(T1,T2,…)`. -/
def Event.topic (e : Event) : List Nat :=
  keccak256 (strBytes
    (e.name ++ "(" ++ String.intercalate "," (e.inputs.map (fun p => p.type_.to_string)) ++ ")"))

/-- An event-data codec, standing in for `Event::decode_data_from_slice` of
the missing event module: topics and data to decoded params, or an error. -/
def EventCodec : Type := Event → List (List Nat) → List Nat → Except String (List (Param × Value))

/-- Embeds `Abi::decode_log_from_slice` (src/abi.rs:66-84): empty topics report
"missing event topic id"; otherwise scan events for one whose full topic
hash equals `topics[0]`, report "ABI event not found" when none matches, and
dispatch the first match to the data decoder. -/
def Abi.decode_log_from_slice (abi : Abi) (dec : EventCodec)
    (topics : List (List Nat)) (data : List Nat) :
    Except RErr (Event × List (Param × Value)) :=
  if topics.isEmpty then .error (.err "missing event topic id")
  else
    match abi.events.find? (fun e => e.topic == topics.headD []) with
    | none => .error (.err "ABI event not found")
    | some e =>
      match dec e topics data with
      | .error m => .error (.err m)
      | .ok dp => .ok (e, dp)

/-! ## The type-grammar parser of `src/params.rs`

The `nom` combinators are embedded over `List Char` inputs. A parser
returns the unconsumed input and a result, a recoverable `nom` error
(`PErr.fail`, caught by `alt`), or a Rust panic (`PErr.panic`, which
propagates through every combinator). -/

/-- Parser outcome kind: a recoverable `nom` error or a Rust panic. -/
inductive PErr : Type where
  | fail
  | panic
deriving DecidableEq

/-- Result of a parser step: leftover input paired with a value. -/
abbrev PResult (α : Type) := Except PErr (List Char × α)

/-- Propagates a parse failure, or feeds the leftover input and result to
the continuation (the sequencing implicit in the source's `?`-style match
chains). -/
def pthen (r1 : PResult α) (k : List Char → α → PResult β) : PResult β :=
  match r1 with
  | .error e => .error e
  | .ok (i, a) => k i a

/-- Embeds `nom::branch::alt`: retry on a recoverable error only; a panic
propagates. -/
def altR (r1 : PResult α) (r2 : Unit → PResult α) : PResult α :=
  match r1 with
  | .error .fail => r2 ()
  | r => r

/-- Embeds `nom::bytes::complete::tag`: match a literal prefix. -/
def tag (t : List Char) (input : List Char) : PResult Unit :=
  if t.isPrefixOf input then .ok (input.drop t.length, ()) else .error .fail

/-- Embeds `nom::character::complete::char`: match a single character. -/
def charTok (c : Char) (input : List Char) : PResult Unit :=
  match input with
  | [] => .error .fail
  | c2 :: rest => if c2 = c then .ok (rest, ()) else .error .fail

/-- Decimal value of a digit string. -/
def digitsToNat (ds : List Char) : Nat :=
  ds.foldl (fun acc c => 10 * acc + (c.toNat - 48)) 0

/-- Embeds `parse_integer` (src/params.rs:162-164):
`map_res(recognize(many1(digit1)), str::parse::<usize>)` — one or more
leading digits, whose value must fit a 64-bit `usize`. -/
def parse_integer (input : List Char) : PResult Nat :=
  let ds := input.takeWhile Char.isDigit
  if ds.isEmpty then .error .fail
  else if digitsToNat ds < 2 ^ 64 then .ok (input.dropWhile Char.isDigit, digitsToNat ds)
  else .error .fail

/-- Embeds `parse_sized` (src/params.rs:154-160): a literal tag then an integer. -/
def parse_sized (t : List Char) (input : List Char) : PResult Nat :=
  pthen (tag t input) fun i _ => parse_integer i

/-- Embeds `check_int_size` (src/params.rs:166-170). -/
def check_int_size (i : Nat) : Bool :=
  decide (0 < i) && decide (i ≤ 256) && decide (i % 8 = 0)

/-- Embeds `check_fixed_bytes_size` (src/params.rs:172-176). -/
def check_fixed_bytes_size (i : Nat) : Bool :=
  decide (0 < i) && decide (i ≤ 32)

/-- Embeds `parse_uint` (src/params.rs:82-84). -/
def parse_uint (input : List Char) : PResult Type' :=
  pthen (parse_sized "uint".data input) fun i size =>
    if check_int_size size then .ok (i, .Uint size) else .error .fail

/-- Embeds `parse_int` (src/params.rs:86-88). -/
def parse_int (input : List Char) : PResult Type' :=
  pthen (parse_sized "int".data input) fun i size =>
    if check_int_size size then .ok (i, .Int size) else .error .fail

/-- Embeds `parse_address` (src/params.rs:90-92). -/
def parse_address (input : List Char) : PResult Type' :=
  pthen (tag "address".data input) fun i _ => .ok (i, .Address)

/-- Embeds `parse_bool` (src/params.rs:94-96). -/
def parse_bool (input : List Char) : PResult Type' :=
  pthen (tag "bool".data input) fun i _ => .ok (i, .Bool)

/-- Embeds `parse_string` (src/params.rs:98-100). -/
def parse_string (input : List Char) : PResult Type' :=
  pthen (tag "string".data input) fun i _ => .ok (i, .String)

/-- Embeds `parse_bytes` (src/params.rs:102-109): the tag `bytes`, then an optional
size accepted only when `check_fixed_bytes_size` holds (`opt` backtracks,
consuming nothing, when the sized variant is refused). -/
def parse_bytes (input : List Char) : PResult Type' :=
  pthen (tag "bytes".data input) fun i _ =>
    match parse_integer i with
    | .ok (i2, size) =>
      if check_fixed_bytes_size size then .ok (i2, .FixedBytes size) else .ok (i, .Bytes)
    | .error _ => .ok (i, .Bytes)

/-- One array suffix `'[' integer? ']'`
(`delimited(char('['), opt(parse_integer), char(']'))`, src/params.rs:115). -/
def parseSuffix (input : List Char) : PResult (Option Nat) :=
  pthen (charTok '[' input) fun i _ =>
    let step := match parse_integer i with
      | .ok (i2, n) => (i2, some n)
      | .error _ => (i, none)
    pthen (charTok ']' step.1) fun i3 _ => .ok (i3, step.2)

/-- Iterate `parseSuffix` until it fails, with enough fuel to never run out
(each successful suffix consumes at least one character). -/
def manySuffixAux : Nat → List Char → List (Option Nat) → List Char × List (Option Nat)
  | 0, inp, acc => (inp, acc)
  | fuel + 1, inp, acc =>
    match parseSuffix inp with
    | .error _ => (inp, acc)
    | .ok (rest, s) => manySuffixAux fuel rest (acc ++ [s])

/-- Embeds `many1(delimited(char('['), opt(parse_integer), char(']')))`
(src/params.rs:115): at least one array suffix, then as many as match. -/
def parseSuffixes (input : List Char) : PResult (List (Option Nat)) :=
  pthen (parseSuffix input) fun rest s => .ok (manySuffixAux rest.length rest [s])

/-- Embeds `array_from_size` (src/params.rs:117-120): empty brackets give a dynamic
array, a bracketed integer a fixed one. -/
def array_from_size (ty : Type') (size : Option Nat) : Type' :=
  match size with
  | none => .Array ty
  | some n => .FixedArray ty n

/-- A JSON parameter entry before type parsing (`ParamEntry` in
`src/params.rs`): `name` and `type` are mandatory, `indexed` and
`components` optional. -/
structure ParamEntry where
  name : String
  type_ : String
  indexed : Option Bool
  components : Option (List ParamEntry)

/-- The recursive knot of the parser: `parse_tuple` re-enters
`parse_exact_type` on each tuple component's own type string. The grammar
functions below take that re-entry point as the explicit argument `recE`,
and `parserFuel` ties the knot by structural recursion on a fuel that
strictly exceeds the component-nesting depth, so that every function
reduces definitionally. -/
abbrev RecE : Type := Option (List ParamEntry) → List Char → Except PErr Type'

/-- The `try_fold` body of `parse_tuple` (src/params.rs:134-145): parse
every component's type string against its own sub-components; the source
calls `.unwrap()` on each result, so any component parse error panics. -/
def tupleComponentTypes (recE : RecE) : List ParamEntry → Except PErr (List (String × Type'))
  | [] => .ok []
  | p :: ps =>
    match recE p.components p.type_.data with
    | .error _ => .error .panic
    | .ok ty =>
      match tupleComponentTypes recE ps with
      | .error e => .error e
      | .ok tys => .ok ((p.name, ty) :: tys)

/-- Embeds `parse_tuple` (src/params.rs:129-152): after the `tuple` tag, missing
component descriptors hit `panic!(":(")`. -/
def parse_tuple (recE : RecE) (comps : Option (List ParamEntry)) (input : List Char) :
    PResult Type' :=
  pthen (tag "tuple".data input) fun i _ =>
    match comps with
    | none => .error .panic
    | some cs =>
      match tupleComponentTypes recE cs with
      | .error e => .error e
      | .ok tys => .ok (i, .Tuple tys)

/-- Embeds `parse_simple_type` (src/params.rs:66-80): the `alt` cascade over
tuple, uint, int, address, bool, string, bytes; `alt` retries on a
recoverable error only, a panic propagates. -/
def parse_simple_type (recE : RecE) (comps : Option (List ParamEntry)) (input : List Char) :
    PResult Type' :=
  altR (parse_tuple recE comps input) fun _ =>
  altR (parse_uint input) fun _ =>
  altR (parse_int input) fun _ =>
  altR (parse_address input) fun _ =>
  altR (parse_bool input) fun _ =>
  altR (parse_string input) fun _ =>
  parse_bytes input

/-- Embeds `parse_array` (src/params.rs:111-127): a simple type, one or more array
suffixes, then the fold that nests the first suffix innermost. -/
def parse_array (recE : RecE) (comps : Option (List ParamEntry)) (input : List Char) :
    PResult Type' :=
  pthen (parse_simple_type recE comps input) fun i ty =>
    pthen (parseSuffixes i) fun rest sizes =>
      .ok (rest, (sizes.drop 1).foldl array_from_size (array_from_size ty (sizes.headD none)))

/-- Embeds `parse_type` (src/params.rs:57-64): `alt((parse_array, parse_simple_type))`. -/
def parse_type (recE : RecE) (comps : Option (List ParamEntry)) (input : List Char) :
    PResult Type' :=
  altR (parse_array recE comps input) fun _ => parse_simple_type recE comps input

/-- The body of `parse_exact_type` (src/params.rs:53-55): `parse_type`
anchored to end of input (`exact!`). -/
def parse_exact_of (recE : RecE) (comps : Option (List ParamEntry)) (input : List Char) :
    Except PErr Type' :=
  match parse_type recE comps input with
  | .error e => .error e
  | .ok (rest, ty) => if rest.isEmpty then .ok ty else .error .fail

/-- Unfolding equations for `pthen`. -/
theorem pthen_ok (i : List Char) (a : α) (k : List Char → α → PResult β) :
    pthen (.ok (i, a)) k = k i a := rfl

/-- Error propagation of `pthen`. -/
theorem pthen_error (e : PErr) (k : List Char → α → PResult β) :
    pthen (.error e) k = .error e := rfl

/-- Backtracking equation of `altR`. -/
theorem altR_fail (k : Unit → PResult α) : altR (.error .fail) k = k () := rfl

/-- Success equation of `altR`. -/
theorem altR_ok (i : List Char) (a : α) (k : Unit → PResult α) :
    altR (.ok (i, a)) k = .ok (i, a) := rfl

/-- Panic propagation of `altR`. -/
theorem altR_panic (k : Unit → PResult α) : altR (.error .panic) k = .error .panic := rfl

/-- The tied parser. The Rust recursion is structural over the component
tree: each tuple descent moves to the components of one entry of the
current list, one level deeper. The embedding exposes that depth as fuel;
every statement below either holds for all fuel or instantiates it above
the nesting depth of its concrete input, so the `0` case is never
reached. -/
def parserFuel : Nat → RecE
  | 0, _, _ => .error .panic
  | fuel + 1, comps, input => parse_exact_of (parserFuel fuel) comps input

/-- Embeds `parse_exact_type` (src/params.rs:53-55), the tied knot, at the given
recursion-depth fuel. -/
def parse_exact_type (fuel : Nat) (comps : Option (List ParamEntry)) (input : List Char) :
    Except PErr Type' :=
  parserFuel fuel comps input

/-- Embeds `Param::deserialize` after the serde layer (src/params.rs:14-30): parse
the entry's type string against its components; a parser error is mapped to
a returned deserialization error, while a panic propagates. -/
def Param.fromEntry (fuel : Nat) (entry : ParamEntry) : Except RErr Param :=
  match parse_exact_type fuel entry.components entry.type_.data with
  | .error .panic => .error .panic
  | .error .fail => .error (.err "type parse error")
  | .ok ty => .ok { name := entry.name, type_ := ty, indexed := entry.indexed }

/-! ## Schema JSON (de)serialization, at the entry level -/

/-- A raw ABI JSON entry (`AbiEntry` in `src/abi.rs`). -/
structure AbiEntry where
  type_ : String
  name : Option String
  inputs : Option (List Param)
  outputs : Option (List Param)
  state_mutability : Option StateMutability
  anonymous : Option Bool

/-- Embeds `Abi::serialize` (src/abi.rs:87-162) at the entry-list level (rendering
entries to JSON text is serde's job): the constructor first, always emitted
as non-payable, then functions, events, errors, and payable
receive/fallback markers. -/
def Abi.serializeEntries (abi : Abi) : List AbiEntry :=
  (match abi.constructor with
   | some c => [⟨"constructor", none, some c.inputs, none, some .NonPayable, none⟩]
   | none => []) ++
  abi.functions.map (fun f =>
    ⟨"function", some f.name, some f.inputs, some f.outputs, some f.state_mutability, none⟩) ++
  abi.events.map (fun e =>
    ⟨"event", some e.name, some e.inputs, none, none, some e.anonymous⟩) ++
  abi.errors.map (fun er =>
    ⟨"error", some er.name, some er.inputs, none, none, none⟩) ++
  (if abi.has_receive then [⟨"receive", none, none, none, some .Payable, none⟩] else []) ++
  (if abi.has_fallback then [⟨"fallback", none, none, none, some .Payable, none⟩] else [])

/-- One entry step of `AbiVisitor::visit_seq` (src/abi.rs:295-381). -/
def visitEntry (abi : Abi) (entry : AbiEntry) : Except String Abi :=
  if entry.type_ = "receive" then .ok { abi with has_receive := true }
  else if entry.type_ = "fallback" then .ok { abi with has_fallback := true }
  else if entry.type_ = "constructor" then
    match entry.state_mutability with
    | none => .error "missing constructor state mutability"
    | some sm => .ok { abi with constructor := some ⟨entry.inputs.getD [], sm⟩ }
  else if entry.type_ = "function" then
    match entry.state_mutability with
    | none => .error "missing function state mutability"
    | some sm =>
      match entry.name with
      | none => .error "missing function name"
      | some nm =>
        .ok { abi with functions :=
          abi.functions ++ [⟨nm, entry.inputs.getD [], entry.outputs.getD [], sm⟩] }
  else if entry.type_ = "event" then
    match entry.name with
    | none => .error "missing function name"
    | some nm =>
      match entry.anonymous with
      | none => .error "missing event anonymous field"
      | some an => .ok { abi with events := abi.events ++ [⟨nm, entry.inputs.getD [], an⟩] }
  else if entry.type_ = "error" then
    match entry.name with
    | none => .error "missing error name"
    | some nm => .ok { abi with errors := abi.errors ++ [⟨nm, entry.inputs.getD []⟩] }
  else .error ("invalid ABI entry type: " ++ entry.type_)

/-- The empty accumulator `visit_seq` starts from (src/abi.rs:286-293). -/
def emptyAbi : Abi := ⟨none, [], [], [], false, false⟩

/-- The `visit_seq` loop: fold the entries into the accumulator. -/
def visitEntries : Abi → List AbiEntry → Except String Abi
  | abi, [] => .ok abi
  | abi, e :: es =>
    match visitEntry abi e with
    | .error m => .error m
    | .ok abi2 => visitEntries abi2 es

/-- Embeds `Abi::deserialize` at the entry-list level. -/
def Abi.deserializeEntries (entries : List AbiEntry) : Except String Abi :=
  visitEntries emptyAbi entries

/-! ## JSON parameter objects (for the `ParamEntry` requiredness claim) -/

/-- Modelled from the spec: the fragment of the JSON value tree a parameter
entry can contain (§4.6). JSON parsing itself is serde's. -/
inductive Json : Type where
  | str (s : String)
  | bool (b : Bool)
  | num (n : Int)
  | arr (items : List Json)
  | obj (fields : List (String × Json))

/-- First binding of a key in a JSON object's field list. -/
def jsonLookup (fields : List (String × Json)) (key : String) : Option Json :=
  match fields with
  | [] => none
  | (k, v) :: rest => if k = key then some v else jsonLookup rest key

mutual

/-- Modelled from the spec: the serde-derived deserializer for `ParamEntry`
(src/params.rs:32-39) walks the object's fields; `name` and `type` have no
`Option` type so they are mandatory, `indexed` and `components` default to
`None` when absent, and unknown fields are tolerated and discarded. The
fold returns the collected `(name, type, indexed, components)`. -/
def collectParamFields : List (String × Json) →
    Except String (Option String × Option String × Option Bool × Option (List ParamEntry))
  | [] => .ok (none, none, none, none)
  | (k, v) :: rest =>
    match collectParamFields rest with
    | .error m => .error m
    | .ok acc => setParamField k v acc

/-- Dispatch of one JSON object field into the collected entry slots. -/
def setParamField (k : String) (v : Json)
    (acc : Option String × Option String × Option Bool × Option (List ParamEntry)) :
    Except String (Option String × Option String × Option Bool × Option (List ParamEntry)) :=
  if k = "name" then
    match v with
    | .str s => .ok (some s, acc.2.1, acc.2.2.1, acc.2.2.2)
    | _ => .error "invalid type: expected a string name"
  else if k = "type" then
    match v with
    | .str s => .ok (acc.1, some s, acc.2.2.1, acc.2.2.2)
    | _ => .error "invalid type: expected a string type"
  else if k = "indexed" then
    match v with
    | .bool b => .ok (acc.1, acc.2.1, some b, acc.2.2.2)
    | _ => .error "invalid type: expected a boolean"
  else if k = "components" then
    match v with
    | .arr items =>
      (match paramEntriesFromJson items with
       | .error m => .error m
       | .ok cs => .ok (acc.1, acc.2.1, acc.2.2.1, some cs))
    | _ => .error "invalid type: expected an array"
  else .ok acc

/-- Deserialize a list of JSON parameter objects. -/
def paramEntriesFromJson : List Json → Except String (List ParamEntry)
  | [] => .ok []
  | j :: js =>
    match paramEntryFromJson j with
    | .error m => .error m
    | .ok e =>
      match paramEntriesFromJson js with
      | .error m => .error m
      | .ok es => .ok (e :: es)

/-- Deserialize one JSON value into a `ParamEntry`: it must be an object,
and its `name` and `type` fields must both be present. -/
def paramEntryFromJson : Json → Except String ParamEntry
  | .obj fields =>
    (match collectParamFields fields with
     | .error m => .error m
     | .ok (some nm, some ty, ix, comps) => .ok ⟨nm, ty, ix, comps⟩
     | .ok (none, _, _, _) => .error "missing field name"
     | .ok (_, none, _, _) => .error "missing field type")
  | _ => .error "invalid type: expected a parameter object"

end

/-- Full deserialization of a JSON value into a `Param`: the serde-derived
`ParamEntry` step followed by `Param::deserialize`'s type parse. -/
def Param.fromJson (fuel : Nat) (j : Json) : Except RErr Param :=
  match paramEntryFromJson j with
  | .error m => .error (.err m)
  | .ok entry => Param.fromEntry fuel entry

/-! ## Renderings of array suffix lists (for the suffix-nesting claim) -/

/-- Renders one array suffix: `none` as `[]`, a digit string `ds` as `[ds]`. -/
def renderSuffix1 : Option (List Char) → List Char
  | none => ['[', ']']
  | some ds => '[' :: (ds ++ [']'])

/-- Renders a whole suffix list, in order. -/
def renderSuffixes (sizes : List (Option (List Char))) : List Char :=
  (sizes.map renderSuffix1).flatten

/-- Holds when a suffix is well-formed: an explicit size must be a nonempty
digit string whose value fits a 64-bit `usize`. -/
def goodSuffix : Option (List Char) → Bool
  | none => true
  | some ds => !ds.isEmpty && ds.all Char.isDigit && decide (digitsToNat ds < 2 ^ 64)

/-- Numeric value of a rendered suffix. -/
def suffixValue : Option (List Char) → Option Nat
  | none => none
  | some ds => some (digitsToNat ds)

/-- Nesting claimed by the spec: the first suffix binds innermost, each
later suffix wraps the type built so far. -/
def nestSuffixes : Type' → List (Option Nat) → Type'
  | ty, [] => ty
  | ty, s :: rest => nestSuffixes (array_from_size ty s) rest

/-! ## Concrete fixtures (from the source tests) -/

/-- Embeds `test_function` from the source tests (src/abi.rs:395-413). -/
def testFunction : Function :=
  { name := "funname",
    inputs := [⟨"", .Address, none⟩, ⟨"x", .FixedArray (.Uint 56) 2, none⟩],
    outputs := [],
    state_mutability := .Pure }

/-- The single-function ABI of `abi_function_decode_input_from_slice`. -/
def testAbi : Abi := ⟨none, [testFunction], [], [], false, false⟩

/-- An anonymous no-input event and an ABI holding it. -/
def testEvent : Event := ⟨"E", [], true⟩

/-- ABI holding only `testEvent`. -/
def testEventAbi : Abi := ⟨none, [], [testEvent], [], false, false⟩

/-- A codec stub that decodes no values (used to instantiate dispatch
theorems at concrete inputs). -/
def trivialCodec : Codec := fun _ _ => .ok []

/-- An event-codec stub that decodes no values. -/
def trivialEventCodec : EventCodec := fun _ _ _ => .ok []

/-! ## Theorems -/

set_option maxRecDepth 1000000 in
/-- C3: for every `Function`, `signature()` is the name followed by the
comma-joined canonical string forms of the input types in parentheses
(parameter names elided), `method_id()` is the first 4 bytes of the
Keccak-256 hash of that signature, and the test function named `funname`
with inputs of types `address` and `uint56[2]` has signature
`funname(address,uint56[2])` and method id `0x831fc720`. -/
theorem function_signature_and_method_id :
    (∀ f : Function,
      f.signature =
        f.name ++ "(" ++
          String.intercalate "," (f.inputs.map (fun p => p.type_.to_string)) ++ ")" ∧
      f.method_id = (keccak256 (strBytes f.signature)).take 4) ∧
    testFunction.signature = "funname(address,uint56[2])" ∧
    testFunction.method_id = [0x83, 0x1f, 0xc7, 0x20] :=
  ⟨fun _ => ⟨rfl, rfl⟩, by decide, by decide⟩

/-- C5 (counter-evidence): a `tuple` type string without component
descriptors does not fail with a returned error — `parse_tuple` hits
`panic!(":(")` — and a malformed component type string inside a tuple's
components panics through `.unwrap()` as well. Each fact holds at every
recursion fuel, so none of these panics is a fuel artifact. -/
theorem tuple_parse_errors_panic :
    (∀ fuel, parse_exact_type (fuel + 1) none "tuple".data = .error .panic) ∧
    (∀ fuel, parse_exact_type (fuel + 1) none "tuple[2]".data = .error .panic) ∧
    (∀ fuel, Param.fromEntry (fuel + 1) ⟨"s", "tuple", none, none⟩ = .error .panic) ∧
    (∀ fuel,
      parse_exact_type (fuel + 2) (some [⟨"a", "uint7", none, none⟩]) "tuple".data =
        .error .panic) ∧
    (∀ fuel,
      Param.fromEntry (fuel + 2) ⟨"s", "tuple", none, some [⟨"a", "uint7", none, none⟩]⟩ =
        .error .panic) :=
  ⟨fun _ => rfl, fun _ => rfl, fun _ => rfl, fun _ => rfl, fun _ => rfl⟩

/-- C7: `decode_log_from_slice` reports "missing event topic id" on empty
topics, "ABI event not found" when no event's full 32-byte topic hash
equals the first topic, and otherwise dispatches the first event whose
topic hash equals `topics[0]` to the data decoder. -/
theorem decode_log_dispatch (abi : Abi) (dec : EventCodec)
    (topics : List (List Nat)) (data : List Nat) :
    abi.decode_log_from_slice dec topics data =
      match topics with
      | [] => .error (.err "missing event topic id")
      | t0 :: _ =>
        match abi.events.find? (fun e => e.topic == t0) with
        | none => .error (.err "ABI event not found")
        | some e =>
          match dec e topics data with
          | .error m => .error (.err m)
          | .ok dp => .ok (e, dp) := by
  cases topics with
  | nil => rfl
  | cons t0 ts => rfl

/-- C9: log decoding selects the event purely by comparing `topics[0]` with
each event's full topic hash, regardless of the `anonymous` flag (the
selection predicate never consults it): whenever an event is returned, the
topic list starts with that event's topic hash and the event is the first
one in the schema with that hash. -/
theorem decode_log_selects_by_topic_only (abi : Abi) (dec : EventCodec)
    (topics : List (List Nat)) (data : List Nat) (e : Event) (dp : List (Param × Value))
    (h : abi.decode_log_from_slice dec topics data = .ok (e, dp)) :
    ∃ ts, topics = e.topic :: ts ∧
      abi.events.find? (fun ev => ev.topic == e.topic) = some e := by
  unfold Abi.decode_log_from_slice at h
  cases topics with
  | nil => simp at h
  | cons t0 ts =>
    simp only [List.isEmpty_cons, List.headD_cons, if_neg Bool.false_ne_true] at h
    split at h
    · simp at h
    · rename_i e2 hfind
      split at h
      · simp at h
      · rename_i dp2 hdec
        simp only [Except.ok.injEq, Prod.mk.injEq] at h
        obtain ⟨he, hdp⟩ := h
        subst he
        have hp : (e2.topic == t0) = true := by simpa using List.find?_some hfind
        have htopic : e2.topic = t0 := eq_of_beq hp
        subst htopic
        exact ⟨ts, rfl, hfind⟩

set_option maxRecDepth 1000000 in
/-- Witness for C9: a concrete anonymous event is dispatched when the first
topic equals its Keccak-256 topic hash. -/
theorem decode_log_selects_by_topic_only_witness :
    testEvent.anonymous = true ∧
    ∃ ts, [testEvent.topic] = testEvent.topic :: ts ∧
      testEventAbi.events.find? (fun ev => ev.topic == testEvent.topic) = some testEvent :=
  ⟨rfl, decode_log_selects_by_topic_only testEventAbi trivialEventCodec
    [testEvent.topic] [] testEvent [] rfl⟩

/-- The selector scan equals a first-match search when the input carries at
least 4 bytes. -/
theorem findFunction_eq_find? (fs : List Function) (input : List Nat)
    (h : 4 ≤ input.length) :
    findFunction fs input = .ok (fs.find? (fun f => f.method_id == input.take 4)) := by
  induction fs with
  | nil => rfl
  | cons f fs ih =>
    have hs : sliceRange input 0 4 = some (input.take 4) := by
      simp [sliceRange, h]
    unfold findFunction
    rw [hs]
    show (if f.method_id = input.take 4 then Except.ok (some f) else findFunction fs input) = _
    rw [List.find?_cons]
    by_cases hm : f.method_id = input.take 4
    · have hbeq : (f.method_id == input.take 4) = true := by simpa using hm
      rw [if_pos hm, hbeq]
    · have hbeq : (f.method_id == input.take 4) = false := by simpa using hm
      rw [if_neg hm, hbeq, ih]

/-- C1: on input of length at least 4, `decode_input_from_slice` selects
the first function whose `method_id()` equals the first 4 input bytes,
decodes the remaining bytes against that function's input types, pairs the
function with the zip of its inputs and the decoded values, and reports
"ABI function not found" when no selector matches. The statement holds for
every value codec `dec` standing in for the external
`Value::decode_from_slice`. -/
theorem decode_input_dispatch (abi : Abi) (dec : Codec) (input : List Nat)
    (h : 4 ≤ input.length) :
    abi.decode_input_from_slice dec input =
      match abi.functions.find? (fun f => f.method_id == input.take 4) with
      | none => .error (.err "ABI function not found")
      | some f =>
        match dec (input.drop 4) (f.inputs.map (fun p => p.type_)) with
        | .error m => .error (.err m)
        | .ok vs => .ok (f, f.inputs.zip vs) := by
  unfold Abi.decode_input_from_slice
  rw [findFunction_eq_find? _ _ h]
  cases abi.functions.find? (fun f => f.method_id == input.take 4) with
  | none => rfl
  | some f =>
    unfold Function.decode_input_from_slice
    show (match Except.map (fun vs => f.inputs.zip vs)
            (dec (input.drop 4) (f.inputs.map (fun p => p.type_))) with
          | Except.error m => Except.error (RErr.err m)
          | Except.ok dp => Except.ok (f, dp)) =
         (match dec (input.drop 4) (f.inputs.map (fun p => p.type_)) with
          | Except.error m => Except.error (RErr.err m)
          | Except.ok vs => Except.ok (f, f.inputs.zip vs))
    cases hdec : dec (input.drop 4) (f.inputs.map (fun p => p.type_)) with
    | error m => rfl
    | ok vs => rfl

set_option maxRecDepth 1000000 in
/-- Witness for C1: the test ABI dispatches calldata carrying the selector
`0x831fc720` to `testFunction` and returns it with the decoded params. -/
theorem decode_input_dispatch_witness :
    4 ≤ ([0x83, 0x1f, 0xc7, 0x20, 0, 0] : List Nat).length ∧
    testAbi.decode_input_from_slice trivialCodec [0x83, 0x1f, 0xc7, 0x20, 0, 0] =
      .ok (testFunction, []) := by
  refine ⟨by decide, ?_⟩
  rw [decode_input_dispatch testAbi trivialCodec _ (by decide)]
  rfl

/-- C2 (counter-evidence): a byte slice shorter than 4 bytes is never
reported as "input too short": the selector scan's closure indexes
`input[0..4]`, so with at least one function the call panics, and with no
functions the scan finds nothing and the call reports
"ABI function not found". -/
theorem decode_input_short_never_input_too_short (abi : Abi) (dec : Codec)
    (input : List Nat) (h : input.length < 4) :
    abi.decode_input_from_slice dec input =
      if abi.functions.isEmpty then .error (.err "ABI function not found")
      else .error .panic := by
  unfold Abi.decode_input_from_slice
  cases habi : abi.functions with
  | nil => rfl
  | cons f fs =>
    have hs : sliceRange input 0 4 = none := by
      simp only [sliceRange, ite_eq_right_iff]
      intro ⟨_, h4⟩
      omega
    unfold findFunction
    rw [hs]
    rfl

set_option maxRecDepth 1000000 in
/-- Witness for C2: the empty input makes the one-function test ABI panic,
while the empty ABI reports "ABI function not found" — not "input too
short" in either case. -/
theorem decode_input_short_witness :
    ([] : List Nat).length < 4 ∧
    testAbi.decode_input_from_slice trivialCodec [] = .error .panic ∧
    emptyAbi.decode_input_from_slice trivialCodec [] =
      .error (.err "ABI function not found") := by
  refine ⟨by decide, ?_, ?_⟩
  · rw [decode_input_short_never_input_too_short testAbi trivialCodec [] (by decide)]
    rfl
  · rw [decode_input_short_never_input_too_short emptyAbi trivialCodec [] (by decide)]
    rfl

/-- Splitting of `takeWhile`/`dropWhile` over an all-digit prefix. -/
theorem takeWhile_digits_all (ds r : List Char) (h : ds.all Char.isDigit = true) :
    (ds ++ r).takeWhile Char.isDigit = ds ++ r.takeWhile Char.isDigit ∧
    (ds ++ r).dropWhile Char.isDigit = r.dropWhile Char.isDigit := by
  induction ds with
  | nil => simp
  | cons c cs ih =>
    simp only [List.all_cons, Bool.and_eq_true] at h
    obtain ⟨hc, hcs⟩ := h
    obtain ⟨iht, ihd⟩ := ih hcs
    refine ⟨?_, ?_⟩
    · simp [List.takeWhile_cons, hc, iht]
    · simp [List.dropWhile_cons, hc, ihd]

/-- Behavior of `parse_integer` on an all-digit prefix followed by a
non-digit remainder. -/
theorem parse_integer_digits (ds r : List Char) (hne : ds ≠ [])
    (hds : ds.all Char.isDigit = true)
    (hr1 : r.takeWhile Char.isDigit = []) (hr2 : r.dropWhile Char.isDigit = r) :
    parse_integer (ds ++ r) =
      if digitsToNat ds < 2 ^ 64 then .ok (r, digitsToNat ds) else .error .fail := by
  obtain ⟨ht, hd⟩ := takeWhile_digits_all ds r hds
  rw [hr1] at ht
  rw [hr2] at hd
  have hemp : ds.isEmpty = false := by
    cases ds with
    | nil => exact absurd rfl hne
    | cons c cs => rfl
  unfold parse_integer
  rw [ht, hd, List.append_nil]
  simp [hemp]

/-- Iff-form of `check_int_size`: exactly the multiples of 8 from 8 to 256. -/
theorem check_int_size_iff (n : Nat) :
    check_int_size n = true ↔ n % 8 = 0 ∧ 8 ≤ n ∧ n ≤ 256 := by
  unfold check_int_size
  simp only [Bool.and_eq_true, decide_eq_true_eq]
  omega

/-- Iff-form of `check_fixed_bytes_size`: sizes 1 to 32. -/
theorem check_fixed_bytes_size_iff (n : Nat) :
    check_fixed_bytes_size n = true ↔ 1 ≤ n ∧ n ≤ 32 := by
  unfold check_fixed_bytes_size
  simp only [Bool.and_eq_true, decide_eq_true_eq]
  omega

/-- An all-digit input never starts an array suffix. -/
theorem parseSuffix_digits_fail (ds : List Char) (hne : ds ≠ [])
    (hds : ds.all Char.isDigit = true) :
    parseSuffix ds = .error .fail := by
  cases ds with
  | nil => exact absurd rfl hne
  | cons c cs =>
    simp only [List.all_cons, Bool.and_eq_true] at hds
    have hcne : ¬ (c = '[') := by
      intro hc
      subst hc
      simp at hds
    have hct : charTok '[' (c :: cs) = .error .fail := by
      show (if c = '[' then Except.ok (cs, ()) else Except.error PErr.fail) = .error .fail
      rw [if_neg hcne]
    unfold parseSuffix
    rw [hct, pthen_error]

/-- An all-digit remainder never parses as array suffixes. -/
theorem parseSuffixes_digits_fail (ds : List Char) (hne : ds ≠ [])
    (hds : ds.all Char.isDigit = true) :
    parseSuffixes ds = .error .fail := by
  unfold parseSuffixes
  rw [parseSuffix_digits_fail ds hne hds, pthen_error]

/-- Specialization of `parse_integer` to an all-digit whole input. -/
theorem parse_integer_digits_nil (ds : List Char) (hne : ds ≠ [])
    (hds : ds.all Char.isDigit = true) :
    parse_integer ds =
      if digitsToNat ds < 2 ^ 64 then .ok ([], digitsToNat ds) else .error .fail := by
  have h := parse_integer_digits ds [] hne hds rfl rfl
  simpa using h

/-- Reduction of `parse_uint` past its tag. -/
theorem parse_uint_cons (ds : List Char) :
    parse_uint ('u' :: 'i' :: 'n' :: 't' :: ds) =
      pthen (parse_integer ds) fun i size =>
        if check_int_size size then .ok (i, .Uint size) else .error .fail := by
  have htag : tag "uint".data ('u' :: 'i' :: 'n' :: 't' :: ds) = .ok (ds, ()) := by
    simp [tag, List.isPrefixOf]
  unfold parse_uint parse_sized
  simp only [htag, pthen_ok]

/-- Reduction of `parse_int` past its tag. -/
theorem parse_int_cons (ds : List Char) :
    parse_int ('i' :: 'n' :: 't' :: ds) =
      pthen (parse_integer ds) fun i size =>
        if check_int_size size then .ok (i, .Int size) else .error .fail := by
  have htag : tag "int".data ('i' :: 'n' :: 't' :: ds) = .ok (ds, ()) := by
    simp [tag, List.isPrefixOf]
  unfold parse_int parse_sized
  simp only [htag, pthen_ok]

/-- Evaluation of the simple-type cascade on `uint` followed by digits. -/
theorem parse_simple_uint (recE : RecE) (comps : Option (List ParamEntry))
    (ds : List Char) (hne : ds ≠ []) (hds : ds.all Char.isDigit = true) :
    parse_simple_type recE comps ('u' :: 'i' :: 'n' :: 't' :: ds) =
      if digitsToNat ds < 2 ^ 64 then
        (if check_int_size (digitsToNat ds) then .ok ([], .Uint (digitsToNat ds))
         else .error .fail)
      else .error .fail := by
  have htup : parse_tuple recE comps ('u' :: 'i' :: 'n' :: 't' :: ds) = .error .fail := by
    simp [parse_tuple, tag, List.isPrefixOf, pthen]
  have hint : parse_int ('u' :: 'i' :: 'n' :: 't' :: ds) = .error .fail := by
    simp [parse_int, parse_sized, tag, List.isPrefixOf, pthen]
  have haddr : parse_address ('u' :: 'i' :: 'n' :: 't' :: ds) = .error .fail := by
    simp [parse_address, tag, List.isPrefixOf, pthen]
  have hbool : parse_bool ('u' :: 'i' :: 'n' :: 't' :: ds) = .error .fail := by
    simp [parse_bool, tag, List.isPrefixOf, pthen]
  have hstr : parse_string ('u' :: 'i' :: 'n' :: 't' :: ds) = .error .fail := by
    simp [parse_string, tag, List.isPrefixOf, pthen]
  have hbytes : parse_bytes ('u' :: 'i' :: 'n' :: 't' :: ds) = .error .fail := by
    simp [parse_bytes, tag, List.isPrefixOf, pthen]
  unfold parse_simple_type
  rw [htup]
  simp only [altR_fail]
  rw [parse_uint_cons, parse_integer_digits_nil ds hne hds]
  by_cases h64 : digitsToNat ds < 2 ^ 64
  · rw [if_pos h64]
    simp only [pthen_ok]
    by_cases hchk : check_int_size (digitsToNat ds) = true
    · rw [if_pos hchk]
      simp only [altR_ok]
      rw [if_pos h64]
    · rw [if_neg hchk]
      simp only [altR_fail, hint, haddr, hbool, hstr, hbytes]
      rw [if_pos h64]
  · rw [if_neg h64]
    simp only [pthen_error, altR_fail, hint, haddr, hbool, hstr, hbytes]
    rw [if_neg h64]

/-- Evaluation of the simple-type cascade on `int` followed by digits. -/
theorem parse_simple_int (recE : RecE) (comps : Option (List ParamEntry))
    (ds : List Char) (hne : ds ≠ []) (hds : ds.all Char.isDigit = true) :
    parse_simple_type recE comps ('i' :: 'n' :: 't' :: ds) =
      if digitsToNat ds < 2 ^ 64 then
        (if check_int_size (digitsToNat ds) then .ok ([], .Int (digitsToNat ds))
         else .error .fail)
      else .error .fail := by
  have htup : parse_tuple recE comps ('i' :: 'n' :: 't' :: ds) = .error .fail := by
    simp [parse_tuple, tag, List.isPrefixOf, pthen]
  have huint : parse_uint ('i' :: 'n' :: 't' :: ds) = .error .fail := by
    simp [parse_uint, parse_sized, tag, List.isPrefixOf, pthen]
  have haddr : parse_address ('i' :: 'n' :: 't' :: ds) = .error .fail := by
    simp [parse_address, tag, List.isPrefixOf, pthen]
  have hbool : parse_bool ('i' :: 'n' :: 't' :: ds) = .error .fail := by
    simp [parse_bool, tag, List.isPrefixOf, pthen]
  have hstr : parse_string ('i' :: 'n' :: 't' :: ds) = .error .fail := by
    simp [parse_string, tag, List.isPrefixOf, pthen]
  have hbytes : parse_bytes ('i' :: 'n' :: 't' :: ds) = .error .fail := by
    simp [parse_bytes, tag, List.isPrefixOf, pthen]
  unfold parse_simple_type
  rw [htup]
  simp only [altR_fail]
  rw [huint]
  simp only [altR_fail]
  rw [parse_int_cons, parse_integer_digits_nil ds hne hds]
  by_cases h64 : digitsToNat ds < 2 ^ 64
  · rw [if_pos h64]
    simp only [pthen_ok]
    by_cases hchk : check_int_size (digitsToNat ds) = true
    · rw [if_pos hchk]
      simp only [altR_ok]
      rw [if_pos h64]
    · rw [if_neg hchk]
      simp only [altR_fail, haddr, hbool, hstr, hbytes]
      rw [if_pos h64]
  · rw [if_neg h64]
    simp only [pthen_error, altR_fail, haddr, hbool, hstr, hbytes]
    rw [if_neg h64]

/-- Evaluation of the simple-type cascade on `bytes` followed by digits. -/
theorem parse_simple_bytes (recE : RecE) (comps : Option (List ParamEntry))
    (ds : List Char) (hne : ds ≠ []) (hds : ds.all Char.isDigit = true) :
    parse_simple_type recE comps ('b' :: 'y' :: 't' :: 'e' :: 's' :: ds) =
      if digitsToNat ds < 2 ^ 64 then
        (if check_fixed_bytes_size (digitsToNat ds) then
           .ok ([], .FixedBytes (digitsToNat ds))
         else .ok (ds, .Bytes))
      else .ok (ds, .Bytes) := by
  have htup : parse_tuple recE comps ('b' :: 'y' :: 't' :: 'e' :: 's' :: ds) =
      .error .fail := by
    simp [parse_tuple, tag, List.isPrefixOf, pthen]
  have huint : parse_uint ('b' :: 'y' :: 't' :: 'e' :: 's' :: ds) = .error .fail := by
    simp [parse_uint, parse_sized, tag, List.isPrefixOf, pthen]
  have hint : parse_int ('b' :: 'y' :: 't' :: 'e' :: 's' :: ds) = .error .fail := by
    simp [parse_int, parse_sized, tag, List.isPrefixOf, pthen]
  have haddr : parse_address ('b' :: 'y' :: 't' :: 'e' :: 's' :: ds) = .error .fail := by
    simp [parse_address, tag, List.isPrefixOf, pthen]
  have hbool : parse_bool ('b' :: 'y' :: 't' :: 'e' :: 's' :: ds) = .error .fail := by
    simp [parse_bool, tag, List.isPrefixOf, pthen]
  have hstr : parse_string ('b' :: 'y' :: 't' :: 'e' :: 's' :: ds) = .error .fail := by
    simp [parse_string, tag, List.isPrefixOf, pthen]
  have htag : tag "bytes".data ('b' :: 'y' :: 't' :: 'e' :: 's' :: ds) = .ok (ds, ()) := by
    simp [tag, List.isPrefixOf]
  unfold parse_simple_type
  rw [htup]
  simp only [altR_fail]
  rw [huint]
  simp only [altR_fail]
  rw [hint]
  simp only [altR_fail]
  rw [haddr]
  simp only [altR_fail]
  rw [hbool]
  simp only [altR_fail]
  rw [hstr]
  simp only [altR_fail]
  unfold parse_bytes
  simp only [htag, pthen_ok]
  have hpi := parse_integer_digits_nil ds hne hds
  by_cases h64 : digitsToNat ds < 2 ^ 64
  · rw [if_pos h64] at hpi
    simp only [hpi]
    rw [if_pos h64]
  · rw [if_neg h64] at hpi
    simp only [hpi]
    rw [if_neg h64]

/-- Failure of the suffix parser on an empty remainder. -/
theorem parseSuffixes_nil_fail : parseSuffixes ([] : List Char) = .error .fail := rfl

/-- Lifts a simple-type success whose suffix parse fails to `parse_type`. -/
theorem parse_type_suffix_fail (recE : RecE) (comps : Option (List ParamEntry))
    (input rest : List Char) (ty : Type')
    (hs : parse_simple_type recE comps input = .ok (rest, ty))
    (hsuf : parseSuffixes rest = .error .fail) :
    parse_type recE comps input = .ok (rest, ty) := by
  unfold parse_type parse_array
  rw [hs]
  simp only [pthen_ok]
  rw [hsuf]
  simp only [pthen_error, altR_fail]

/-- Lifts a simple-type failure to `parse_type`. -/
theorem parse_type_simple_fail (recE : RecE) (comps : Option (List ParamEntry))
    (input : List Char)
    (hs : parse_simple_type recE comps input = .error .fail) :
    parse_type recE comps input = .error .fail := by
  unfold parse_type parse_array
  rw [hs]
  simp only [pthen_error, altR_fail]

/-- Anchoring a full-consumption parse. -/
theorem parse_exact_of_ok (recE : RecE) (comps : Option (List ParamEntry))
    (input : List Char) (ty : Type')
    (h : parse_type recE comps input = .ok ([], ty)) :
    parse_exact_of recE comps input = .ok ty := by
  unfold parse_exact_of
  rw [h]
  rfl

/-- Anchoring propagates parse errors. -/
theorem parse_exact_of_error (recE : RecE) (comps : Option (List ParamEntry))
    (input : List Char) (e : PErr)
    (h : parse_type recE comps input = .error e) :
    parse_exact_of recE comps input = .error e := by
  unfold parse_exact_of
  rw [h]

/-- Anchoring rejects leftover input. -/
theorem parse_exact_of_rest (recE : RecE) (comps : Option (List ParamEntry))
    (input rest : List Char) (ty : Type')
    (h : parse_type recE comps input = .ok (rest, ty)) (hne : rest ≠ []) :
    parse_exact_of recE comps input = .error .fail := by
  unfold parse_exact_of
  rw [h]
  have hemp : rest.isEmpty = false := by
    cases rest with
    | nil => exact absurd rfl hne
    | cons a as => rfl
  simp [hemp]

/-- C6: a type string `uint{n}` or `int{n}` parses successfully iff `n` is
a multiple of 8 with `8 ≤ n ≤ 256`; `bytes{n}` parses as `FixedBytes n` iff
`1 ≤ n ≤ 32`, while bare `bytes` parses as the dynamic `Bytes`; in
particular `bytes0` and `bytes33` are rejected at schema parse. The digit
suffix is quantified as an arbitrary nonempty digit string and the result
holds at every recursion fuel. -/
theorem numeric_size_gates :
    (∀ (fuel : Nat) (ds : List Char), ds ≠ [] → ds.all Char.isDigit = true →
      (parse_exact_type (fuel + 1) none ("uint".data ++ ds) =
        if check_int_size (digitsToNat ds) then .ok (.Uint (digitsToNat ds))
        else .error .fail) ∧
      (parse_exact_type (fuel + 1) none ("int".data ++ ds) =
        if check_int_size (digitsToNat ds) then .ok (.Int (digitsToNat ds))
        else .error .fail) ∧
      (parse_exact_type (fuel + 1) none ("bytes".data ++ ds) =
        if check_fixed_bytes_size (digitsToNat ds) then .ok (.FixedBytes (digitsToNat ds))
        else .error .fail)) ∧
    (∀ n, check_int_size n = true ↔ n % 8 = 0 ∧ 8 ≤ n ∧ n ≤ 256) ∧
    (∀ n, check_fixed_bytes_size n = true ↔ 1 ≤ n ∧ n ≤ 32) ∧
    (∀ fuel, parse_exact_type (fuel + 1) none "bytes".data = .ok .Bytes) ∧
    (∀ fuel, parse_exact_type (fuel + 1) none "bytes0".data = .error .fail) ∧
    (∀ fuel, parse_exact_type (fuel + 1) none "bytes33".data = .error .fail) := by
  refine ⟨?_, check_int_size_iff, check_fixed_bytes_size_iff, ?_, ?_, ?_⟩
  · intro fuel ds hne hds
    refine ⟨?_, ?_, ?_⟩
    · show parse_exact_of (parserFuel fuel) none ('u' :: 'i' :: 'n' :: 't' :: ds) = _
      have hsim := parse_simple_uint (parserFuel fuel) none ds hne hds
      by_cases hchk : check_int_size (digitsToNat ds) = true
      · have h64 : digitsToNat ds < 2 ^ 64 := by
          have := (check_int_size_iff (digitsToNat ds)).mp hchk
          omega
        rw [if_pos h64, if_pos hchk] at hsim
        rw [if_pos hchk]
        exact parse_exact_of_ok _ _ _ _
          (parse_type_suffix_fail _ _ _ _ _ hsim parseSuffixes_nil_fail)
      · rw [if_neg hchk]
        by_cases h64 : digitsToNat ds < 2 ^ 64
        · rw [if_pos h64, if_neg hchk] at hsim
          exact parse_exact_of_error _ _ _ _ (parse_type_simple_fail _ _ _ hsim)
        · rw [if_neg h64] at hsim
          exact parse_exact_of_error _ _ _ _ (parse_type_simple_fail _ _ _ hsim)
    · show parse_exact_of (parserFuel fuel) none ('i' :: 'n' :: 't' :: ds) = _
      have hsim := parse_simple_int (parserFuel fuel) none ds hne hds
      by_cases hchk : check_int_size (digitsToNat ds) = true
      · have h64 : digitsToNat ds < 2 ^ 64 := by
          have := (check_int_size_iff (digitsToNat ds)).mp hchk
          omega
        rw [if_pos h64, if_pos hchk] at hsim
        rw [if_pos hchk]
        exact parse_exact_of_ok _ _ _ _
          (parse_type_suffix_fail _ _ _ _ _ hsim parseSuffixes_nil_fail)
      · rw [if_neg hchk]
        by_cases h64 : digitsToNat ds < 2 ^ 64
        · rw [if_pos h64, if_neg hchk] at hsim
          exact parse_exact_of_error _ _ _ _ (parse_type_simple_fail _ _ _ hsim)
        · rw [if_neg h64] at hsim
          exact parse_exact_of_error _ _ _ _ (parse_type_simple_fail _ _ _ hsim)
    · show parse_exact_of (parserFuel fuel) none ('b' :: 'y' :: 't' :: 'e' :: 's' :: ds) = _
      have hsim := parse_simple_bytes (parserFuel fuel) none ds hne hds
      by_cases hchk : check_fixed_bytes_size (digitsToNat ds) = true
      · have h64 : digitsToNat ds < 2 ^ 64 := by
          have := (check_fixed_bytes_size_iff (digitsToNat ds)).mp hchk
          omega
        rw [if_pos h64, if_pos hchk] at hsim
        rw [if_pos hchk]
        exact parse_exact_of_ok _ _ _ _
          (parse_type_suffix_fail _ _ _ _ _ hsim parseSuffixes_nil_fail)
      · rw [if_neg hchk]
        by_cases h64 : digitsToNat ds < 2 ^ 64
        · rw [if_pos h64, if_neg hchk] at hsim
          exact parse_exact_of_rest _ _ _ _ _
            (parse_type_suffix_fail _ _ _ _ _ hsim
              (parseSuffixes_digits_fail ds hne hds)) hne
        · rw [if_neg h64] at hsim
          exact parse_exact_of_rest _ _ _ _ _
            (parse_type_suffix_fail _ _ _ _ _ hsim
              (parseSuffixes_digits_fail ds hne hds)) hne
  · intro fuel
    rfl
  · intro fuel
    rfl
  · intro fuel
    rfl

/-- Witness for C6: the digit string `8` after `uint` parses as `Uint 8`. -/
theorem numeric_size_gates_witness :
    (['8'] : List Char) ≠ [] ∧
    (['8'] : List Char).all Char.isDigit = true ∧
    parse_exact_type 1 none ("uint".data ++ ['8']) =
      (if check_int_size (digitsToNat ['8']) then .ok (.Uint (digitsToNat ['8']))
       else .error .fail) :=
  ⟨by decide, by decide, (numeric_size_gates.1 0 ['8'] (by decide) (by decide)).1⟩

/-- Success of one rendered suffix: consumes exactly its own characters. -/
theorem parseSuffix_render (s : Option (List Char)) (r : List Char)
    (hs : goodSuffix s = true) :
    parseSuffix (renderSuffix1 s ++ r) = .ok (r, suffixValue s) := by
  cases s with
  | none => rfl
  | some ds =>
    simp only [goodSuffix, Bool.and_eq_true] at hs
    obtain ⟨⟨hne0, hds⟩, h64⟩ := hs
    have hne : ds ≠ [] := by
      cases ds with
      | nil => simp at hne0
      | cons a as => exact List.cons_ne_nil a as
    have h64n : digitsToNat ds < 2 ^ 64 := of_decide_eq_true h64
    have hpi : parse_integer (ds ++ (']' :: r)) = .ok (']' :: r, digitsToNat ds) := by
      rw [parse_integer_digits ds (']' :: r) hne hds rfl rfl, if_pos h64n]
    have hrender : renderSuffix1 (some ds) ++ r = '[' :: (ds ++ (']' :: r)) := by
      simp [renderSuffix1]
    rw [hrender]
    unfold parseSuffix
    have hcl : charTok '[' ('[' :: (ds ++ (']' :: r))) = .ok (ds ++ (']' :: r), ()) := rfl
    rw [hcl]
    simp only [pthen_ok, hpi]
    have hcr : charTok ']' (']' :: r) = .ok (r, ()) := by
      simp [charTok]
    rw [hcr, pthen_ok]
    rfl

/-- Iterating the suffix parser over a rendered suffix list consumes it
entirely and appends the suffix values to the accumulator. -/
theorem manySuffixAux_render (sizes : List (Option (List Char))) :
    ∀ (fuel : Nat) (acc : List (Option Nat)),
      sizes.all goodSuffix = true →
      (renderSuffixes sizes).length ≤ fuel →
      manySuffixAux fuel (renderSuffixes sizes) acc =
        ([], acc ++ sizes.map suffixValue) := by
  induction sizes with
  | nil =>
    intro fuel acc _ _
    have hr : renderSuffixes [] = [] := rfl
    rw [hr]
    cases fuel with
    | zero => simp [manySuffixAux]
    | succ f => simp [manySuffixAux, parseSuffix, charTok, pthen]
  | cons s rest ih =>
    intro fuel acc hgood hfuel
    simp only [List.all_cons, Bool.and_eq_true] at hgood
    obtain ⟨hs, hrest⟩ := hgood
    have hr : renderSuffixes (s :: rest) = renderSuffix1 s ++ renderSuffixes rest := by
      simp [renderSuffixes]
    have hlen1 : 2 ≤ (renderSuffix1 s).length := by
      cases s <;> simp [renderSuffix1]
    cases fuel with
    | zero =>
      rw [hr, List.length_append] at hfuel
      omega
    | succ f =>
      rw [hr]
      unfold manySuffixAux
      rw [parseSuffix_render s (renderSuffixes rest) hs]
      have hbound : (renderSuffixes rest).length ≤ f := by
        rw [hr, List.length_append] at hfuel
        omega
      have hih := ih f (acc ++ [suffixValue s]) hrest hbound
      exact hih.trans (by simp)

/-- Full consumption of a rendered nonempty suffix list by `many1`. -/
theorem parseSuffixes_render (sizes : List (Option (List Char)))
    (hne : sizes ≠ []) (hgood : sizes.all goodSuffix = true) :
    parseSuffixes (renderSuffixes sizes) = .ok ([], sizes.map suffixValue) := by
  cases sizes with
  | nil => exact absurd rfl hne
  | cons s rest =>
    simp only [List.all_cons, Bool.and_eq_true] at hgood
    obtain ⟨hs, hrest⟩ := hgood
    have hr : renderSuffixes (s :: rest) = renderSuffix1 s ++ renderSuffixes rest := by
      simp [renderSuffixes]
    rw [hr]
    unfold parseSuffixes
    rw [parseSuffix_render s (renderSuffixes rest) hs]
    simp only [pthen_ok]
    rw [manySuffixAux_render rest (renderSuffixes rest).length [suffixValue s] hrest le_rfl]
    simp

/-- Nesting with the first suffix innermost is exactly the source's fold. -/
theorem nestSuffixes_eq_foldl (l : List (Option Nat)) (ty : Type') :
    nestSuffixes ty l = l.foldl array_from_size ty := by
  induction l generalizing ty with
  | nil => rfl
  | cons s rest ih => simp [nestSuffixes, List.foldl_cons, ih]

/-- C4: for every atom type and every sequence of array suffixes, the
parser binds the first suffix innermost and the last outermost: whenever
the simple-type parser consumes the atom and leaves exactly the rendered
suffixes, `parse_type` wraps the atom's type by the suffixes in order
(empty brackets giving a dynamic `Array`, a bracketed integer a
`FixedArray`); in particular `string[2][]` parses as
`Array (FixedArray String 2)` and `string[][3]` as
`FixedArray (Array String) 3`. -/
theorem array_suffixes_nest :
    (∀ (recE : RecE) (comps : Option (List ParamEntry)) (atom : List Char) (ty : Type')
        (sizes : List (Option (List Char))),
      sizes ≠ [] → sizes.all goodSuffix = true →
      parse_simple_type recE comps (atom ++ renderSuffixes sizes) =
        .ok (renderSuffixes sizes, ty) →
      parse_type recE comps (atom ++ renderSuffixes sizes) =
        .ok ([], nestSuffixes ty (sizes.map suffixValue))) ∧
    (∀ (ty : Type') (n : Nat),
      array_from_size ty none = .Array ty ∧
      array_from_size ty (some n) = .FixedArray ty n) ∧
    parse_exact_type 1 none "string[2][]".data = .ok (.Array (.FixedArray .String 2)) ∧
    parse_exact_type 1 none "string[][3]".data = .ok (.FixedArray (.Array .String) 3) := by
  refine ⟨?_, fun ty n => ⟨rfl, rfl⟩, rfl, rfl⟩
  intro recE comps atom ty sizes hne hgood hsimple
  unfold parse_type parse_array
  rw [hsimple]
  simp only [pthen_ok]
  rw [parseSuffixes_render sizes hne hgood]
  simp only [pthen_ok, altR_ok]
  have hmne : sizes.map suffixValue ≠ [] := by
    intro h
    exact hne (List.map_eq_nil_iff.mp h)
  rw [nestSuffixes_eq_foldl]
  cases hm : sizes.map suffixValue with
  | nil => exact absurd hm hmne
  | cons v vs => simp

/-- Witness for C4: the suffix list of `string[2][]` satisfies the
hypotheses and the parser nests the `[2]` innermost. -/
theorem array_suffixes_nest_witness :
    ([some ['2'], none] : List (Option (List Char))) ≠ [] ∧
    ([some ['2'], none] : List (Option (List Char))).all goodSuffix = true ∧
    parse_simple_type (parserFuel 0) none
        ("string".data ++ renderSuffixes [some ['2'], none]) =
      .ok (renderSuffixes [some ['2'], none], .String) ∧
    parse_type (parserFuel 0) none ("string".data ++ renderSuffixes [some ['2'], none]) =
      .ok ([], nestSuffixes .String ([some ['2'], none].map suffixValue)) :=
  ⟨by decide, by decide, by rfl,
   array_suffixes_nest.1 (parserFuel 0) none "string".data .String [some ['2'], none]
     (by decide) (by decide) (by rfl)⟩

/-- Stepping the visitor fold over one successfully visited entry. -/
theorem visitEntries_cons_ok (abi a2 : Abi) (x : AbiEntry) (l : List AbiEntry)
    (h : visitEntry abi x = .ok a2) :
    visitEntries abi (x :: l) = visitEntries a2 l := by
  conv_lhs => unfold visitEntries
  rw [h]

/-- Stepping the visitor fold over a failing entry. -/
theorem visitEntries_cons_error (abi : Abi) (x : AbiEntry) (l : List AbiEntry) (m : String)
    (h : visitEntry abi x = .error m) :
    visitEntries abi (x :: l) = .error m := by
  conv_lhs => unfold visitEntries
  rw [h]

/-- Composition of the visitor fold over appended entry lists. -/
theorem visitEntries_append (xs ys : List AbiEntry) :
    ∀ abi : Abi, visitEntries abi (xs ++ ys) =
      match visitEntries abi xs with
      | .ok a => visitEntries a ys
      | .error m => .error m := by
  induction xs with
  | nil => intro abi; rfl
  | cons x xs ih =>
    intro abi
    rw [List.cons_append]
    cases hv : visitEntry abi x with
    | error m =>
      rw [visitEntries_cons_error abi x (xs ++ ys) m hv,
        visitEntries_cons_error abi x xs m hv]
    | ok a2 =>
      rw [visitEntries_cons_ok abi a2 x (xs ++ ys) hv,
        visitEntries_cons_ok abi a2 x xs hv, ih a2]

/-- Chaining the visitor fold through a successfully folded prefix. -/
theorem visitEntries_append_ok (xs ys : List AbiEntry) (abi a : Abi)
    (h : visitEntries abi xs = .ok a) :
    visitEntries abi (xs ++ ys) = visitEntries a ys := by
  rw [visitEntries_append xs ys abi, h]

/-- Folding the serialized function entries appends the functions in order. -/
theorem visitEntries_functions (fs : List Function) :
    ∀ abi : Abi,
      visitEntries abi (fs.map (fun f =>
        ⟨"function", some f.name, some f.inputs, some f.outputs,
          some f.state_mutability, none⟩)) =
        .ok { abi with functions := abi.functions ++ fs } := by
  induction fs with
  | nil =>
    intro abi
    simp [visitEntries]
  | cons f fs ih =>
    intro abi
    rw [List.map_cons]
    unfold visitEntries
    have hv : visitEntry abi ⟨"function", some f.name, some f.inputs, some f.outputs,
        some f.state_mutability, none⟩ =
        .ok { abi with functions := abi.functions ++ [f] } := by
      simp [visitEntry]
    rw [hv]
    exact (ih _).trans (by simp)

/-- Folding the serialized event entries appends the events in order. -/
theorem visitEntries_events (es : List Event) :
    ∀ abi : Abi,
      visitEntries abi (es.map (fun e =>
        ⟨"event", some e.name, some e.inputs, none, none, some e.anonymous⟩)) =
        .ok { abi with events := abi.events ++ es } := by
  induction es with
  | nil =>
    intro abi
    simp [visitEntries]
  | cons e es ih =>
    intro abi
    rw [List.map_cons]
    unfold visitEntries
    have hv : visitEntry abi ⟨"event", some e.name, some e.inputs, none, none,
        some e.anonymous⟩ =
        .ok { abi with events := abi.events ++ [e] } := by
      simp [visitEntry]
    rw [hv]
    exact (ih _).trans (by simp)

/-- Folding the serialized error entries appends the errors in order. -/
theorem visitEntries_errors (es : List Error') :
    ∀ abi : Abi,
      visitEntries abi (es.map (fun er =>
        ⟨"error", some er.name, some er.inputs, none, none, none⟩)) =
        .ok { abi with errors := abi.errors ++ es } := by
  induction es with
  | nil =>
    intro abi
    simp [visitEntries]
  | cons er es ih =>
    intro abi
    rw [List.map_cons]
    unfold visitEntries
    have hv : visitEntry abi ⟨"error", some er.name, some er.inputs, none, none, none⟩ =
        .ok { abi with errors := abi.errors ++ [er] } := by
      simp [visitEntry]
    rw [hv]
    exact (ih _).trans (by simp)

/-- Folding the optional constructor entry: always lands on non-payable. -/
theorem visitEntries_ctor_seg (oc : Option Constructor) (abi : Abi) :
    visitEntries abi
        (match oc with
         | some c => [⟨"constructor", none, some c.inputs, none, some .NonPayable, none⟩]
         | none => []) =
      .ok { abi with constructor :=
        match oc with
        | some c => some ⟨c.inputs, .NonPayable⟩
        | none => abi.constructor } := by
  cases oc with
  | none => simp [visitEntries]
  | some c => simp [visitEntries, visitEntry]

/-- Folding the optional receive marker. -/
theorem visitEntries_receive_seg (b : Bool) (abi : Abi) :
    visitEntries abi
        (if b then [⟨"receive", none, none, none, some .Payable, none⟩] else []) =
      .ok { abi with has_receive := b || abi.has_receive } := by
  cases b with
  | false => simp [visitEntries]
  | true => simp [visitEntries, visitEntry]

/-- Folding the optional fallback marker. -/
theorem visitEntries_fallback_seg (b : Bool) (abi : Abi) :
    visitEntries abi
        (if b then [⟨"fallback", none, none, none, some .Payable, none⟩] else []) =
      .ok { abi with has_fallback := b || abi.has_fallback } := by
  cases b with
  | false => simp [visitEntries]
  | true => simp [visitEntries, visitEntry]

/-- C8: serializing then deserializing an `Abi` yields the same schema
except that a constructor's state mutability is unconditionally replaced by
`NonPayable` (serialization emits the constructor as non-payable and the
receive/fallback markers as payable); the round trip is the identity
exactly when the constructor is absent or already non-payable. -/
theorem serde_roundtrip (abi : Abi) :
    Abi.deserializeEntries abi.serializeEntries =
      .ok { abi with constructor :=
        abi.constructor.map (fun c => ⟨c.inputs, .NonPayable⟩) } ∧
    (Abi.deserializeEntries abi.serializeEntries = .ok abi ↔
      abi.constructor = none ∨
      ∃ inputs, abi.constructor = some ⟨inputs, .NonPayable⟩) := by
  have hmain : Abi.deserializeEntries abi.serializeEntries =
      .ok { abi with constructor :=
        abi.constructor.map (fun c => ⟨c.inputs, .NonPayable⟩) } := by
    unfold Abi.deserializeEntries Abi.serializeEntries
    simp only [List.append_assoc]
    rw [visitEntries_append_ok _ _ _ _ (visitEntries_ctor_seg abi.constructor emptyAbi),
      visitEntries_append_ok _ _ _ _ (visitEntries_functions abi.functions _),
      visitEntries_append_ok _ _ _ _ (visitEntries_events abi.events _),
      visitEntries_append_ok _ _ _ _ (visitEntries_errors abi.errors _),
      visitEntries_append_ok _ _ _ _ (visitEntries_receive_seg abi.has_receive _),
      visitEntries_fallback_seg abi.has_fallback _]
    cases abi.constructor <;> simp [emptyAbi]
  refine ⟨hmain, ?_⟩
  rw [hmain]
  obtain ⟨oc, fns, evs, ers, hrc, hfb⟩ := abi
  simp only [Except.ok.injEq, Abi.mk.injEq, and_true, true_and]
  cases oc with
  | none => simp
  | some c =>
    obtain ⟨ins, sm⟩ := c
    cases sm <;> simp [Option.map]

/-- Stepping the field fold over a successfully folded tail. -/
theorem collect_cons (k : String) (v : Json) (rest : List (String × Json))
    (acc : Option String × Option String × Option Bool × Option (List ParamEntry))
    (h : collectParamFields rest = .ok acc) :
    collectParamFields ((k, v) :: rest) = setParamField k v acc := by
  conv_lhs => unfold collectParamFields
  rw [h]

/-- Stepping the field fold over a failing tail. -/
theorem collect_cons_error (k : String) (v : Json) (rest : List (String × Json))
    (m : String) (h : collectParamFields rest = .error m) :
    collectParamFields ((k, v) :: rest) = .error m := by
  conv_lhs => unfold collectParamFields
  rw [h]

/-- A field other than `name` leaves the collected name untouched. -/
theorem setParamField_preserves_name (k : String) (v : Json)
    (acc acc2 : Option String × Option String × Option Bool × Option (List ParamEntry))
    (hk : ¬ (k = "name")) (h : setParamField k v acc = .ok acc2) :
    acc2.1 = acc.1 := by
  unfold setParamField at h
  rw [if_neg hk] at h
  by_cases hkt : k = "type"
  · rw [if_pos hkt] at h
    cases v with
    | str s =>
      dsimp only at h
      injection h with h2
      rw [← h2]
    | bool b => dsimp only at h; exact Except.noConfusion h
    | num n => dsimp only at h; exact Except.noConfusion h
    | arr l => dsimp only at h; exact Except.noConfusion h
    | obj l => dsimp only at h; exact Except.noConfusion h
  · rw [if_neg hkt] at h
    by_cases hki : k = "indexed"
    · rw [if_pos hki] at h
      cases v with
      | bool b =>
        dsimp only at h
        injection h with h2
        rw [← h2]
      | str s => dsimp only at h; exact Except.noConfusion h
      | num n => dsimp only at h; exact Except.noConfusion h
      | arr l => dsimp only at h; exact Except.noConfusion h
      | obj l => dsimp only at h; exact Except.noConfusion h
    · rw [if_neg hki] at h
      by_cases hkc : k = "components"
      · rw [if_pos hkc] at h
        cases v with
        | arr items =>
          dsimp only at h
          cases hp : paramEntriesFromJson items with
          | error m =>
            rw [hp] at h
            dsimp only at h
            exact Except.noConfusion h
          | ok cs =>
            rw [hp] at h
            dsimp only at h
            injection h with h2
            rw [← h2]
        | str s => dsimp only at h; exact Except.noConfusion h
        | bool b => dsimp only at h; exact Except.noConfusion h
        | num n => dsimp only at h; exact Except.noConfusion h
        | obj l => dsimp only at h; exact Except.noConfusion h
      · rw [if_neg hkc] at h
        injection h with h2
        rw [← h2]

/-- A field other than `type` leaves the collected type untouched. -/
theorem setParamField_preserves_type (k : String) (v : Json)
    (acc acc2 : Option String × Option String × Option Bool × Option (List ParamEntry))
    (hk : ¬ (k = "type")) (h : setParamField k v acc = .ok acc2) :
    acc2.2.1 = acc.2.1 := by
  unfold setParamField at h
  by_cases hkn : k = "name"
  · rw [if_pos hkn] at h
    cases v with
    | str s =>
      dsimp only at h
      injection h with h2
      rw [← h2]
    | bool b => dsimp only at h; exact Except.noConfusion h
    | num n => dsimp only at h; exact Except.noConfusion h
    | arr l => dsimp only at h; exact Except.noConfusion h
    | obj l => dsimp only at h; exact Except.noConfusion h
  · rw [if_neg hkn, if_neg hk] at h
    by_cases hki : k = "indexed"
    · rw [if_pos hki] at h
      cases v with
      | bool b =>
        dsimp only at h
        injection h with h2
        rw [← h2]
      | str s => dsimp only at h; exact Except.noConfusion h
      | num n => dsimp only at h; exact Except.noConfusion h
      | arr l => dsimp only at h; exact Except.noConfusion h
      | obj l => dsimp only at h; exact Except.noConfusion h
    · rw [if_neg hki] at h
      by_cases hkc : k = "components"
      · rw [if_pos hkc] at h
        cases v with
        | arr items =>
          dsimp only at h
          cases hp : paramEntriesFromJson items with
          | error m =>
            rw [hp] at h
            dsimp only at h
            exact Except.noConfusion h
          | ok cs =>
            rw [hp] at h
            dsimp only at h
            injection h with h2
            rw [← h2]
        | str s => dsimp only at h; exact Except.noConfusion h
        | bool b => dsimp only at h; exact Except.noConfusion h
        | num n => dsimp only at h; exact Except.noConfusion h
        | obj l => dsimp only at h; exact Except.noConfusion h
      · rw [if_neg hkc] at h
        injection h with h2
        rw [← h2]

/-- When a required key is absent from the object, the collected slot for
it stays empty (or the fold fails on some other malformed field). -/
theorem collect_key_none (fields : List (String × Json)) :
    (jsonLookup fields "name" = none →
      (∃ m, collectParamFields fields = .error m) ∨
      (∃ acc, collectParamFields fields = .ok acc ∧ acc.1 = none)) ∧
    (jsonLookup fields "type" = none →
      (∃ m, collectParamFields fields = .error m) ∨
      (∃ acc, collectParamFields fields = .ok acc ∧ acc.2.1 = none)) := by
  induction fields with
  | nil =>
    constructor <;> intro _ <;> exact Or.inr ⟨(none, none, none, none), rfl, rfl⟩
  | cons kv rest ih =>
    obtain ⟨k, v⟩ := kv
    have hlk : ∀ key : String, jsonLookup ((k, v) :: rest) key =
        if k = key then some v else jsonLookup rest key := fun _ => rfl
    constructor
    · intro h
      rw [hlk "name"] at h
      by_cases hkk : k = "name"
      · rw [if_pos hkk] at h
        exact Option.noConfusion h
      · rw [if_neg hkk] at h
        cases ih.1 h with
        | inl herr =>
          obtain ⟨m, hm⟩ := herr
          exact Or.inl ⟨m, collect_cons_error k v rest m hm⟩
        | inr hok =>
          obtain ⟨acc, hacc, hslot⟩ := hok
          have hc := collect_cons k v rest acc hacc
          cases hres : setParamField k v acc with
          | error m => exact Or.inl ⟨m, hc.trans hres⟩
          | ok acc2 =>
            refine Or.inr ⟨acc2, hc.trans hres, ?_⟩
            rw [setParamField_preserves_name k v acc acc2 hkk hres]
            exact hslot
    · intro h
      rw [hlk "type"] at h
      by_cases hkk : k = "type"
      · rw [if_pos hkk] at h
        exact Option.noConfusion h
      · rw [if_neg hkk] at h
        cases ih.2 h with
        | inl herr =>
          obtain ⟨m, hm⟩ := herr
          exact Or.inl ⟨m, collect_cons_error k v rest m hm⟩
        | inr hok =>
          obtain ⟨acc, hacc, hslot⟩ := hok
          have hc := collect_cons k v rest acc hacc
          cases hres : setParamField k v acc with
          | error m => exact Or.inl ⟨m, hc.trans hres⟩
          | ok acc2 =>
            refine Or.inr ⟨acc2, hc.trans hres, ?_⟩
            rw [setParamField_preserves_type k v acc acc2 hkk hres]
            exact hslot

/-- C10: deserializing a JSON parameter object into a `Param` requires both
the `name` and `type` keys: an object missing either fails with a returned
error (propagated through `Param`'s deserializer at any parser fuel), while
an empty string is accepted as a name. -/
theorem param_entry_required_fields :
    (∀ fields : List (String × Json), jsonLookup fields "name" = none →
      ∃ m, paramEntryFromJson (.obj fields) = .error m) ∧
    (∀ fields : List (String × Json), jsonLookup fields "type" = none →
      ∃ m, paramEntryFromJson (.obj fields) = .error m) ∧
    (∀ (fuel : Nat) (fields : List (String × Json)) (m : String),
      paramEntryFromJson (.obj fields) = .error m →
      Param.fromJson fuel (.obj fields) = .error (.err m)) ∧
    Param.fromJson 1 (.obj [("name", .str ""), ("type", .str "bool")]) =
      .ok ⟨"", .Bool, none⟩ := by
  refine ⟨?_, ?_, ?_, rfl⟩
  · intro fields h
    cases (collect_key_none fields).1 h with
    | inl herr =>
      obtain ⟨m, hm⟩ := herr
      refine ⟨m, ?_⟩
      conv_lhs => unfold paramEntryFromJson
      rw [hm]
    | inr hok =>
      obtain ⟨acc, hacc, hslot⟩ := hok
      refine ⟨"missing field name", ?_⟩
      conv_lhs => unfold paramEntryFromJson
      rw [hacc]
      obtain ⟨a1, a2, a3, a4⟩ := acc
      simp only at hslot
      subst hslot
      cases a2 <;> rfl
  · intro fields h
    cases (collect_key_none fields).2 h with
    | inl herr =>
      obtain ⟨m, hm⟩ := herr
      refine ⟨m, ?_⟩
      conv_lhs => unfold paramEntryFromJson
      rw [hm]
    | inr hok =>
      obtain ⟨acc, hacc, hslot⟩ := hok
      obtain ⟨a1, a2, a3, a4⟩ := acc
      simp only at hslot
      subst hslot
      cases a1 with
      | none =>
        refine ⟨"missing field name", ?_⟩
        conv_lhs => unfold paramEntryFromJson
        rw [hacc]
      | some nm =>
        refine ⟨"missing field type", ?_⟩
        conv_lhs => unfold paramEntryFromJson
        rw [hacc]
  · intro fuel fields m h
    conv_lhs => unfold Param.fromJson
    rw [h]

/-- Witness for C10: an object with only a `type` key fails for the missing
name, one with only a `name` key fails for the missing type, and the errors
propagate to the `Param` deserializer. -/
theorem param_entry_required_fields_witness :
    jsonLookup [("type", Json.str "bool")] "name" = none ∧
    (∃ m, paramEntryFromJson (.obj [("type", Json.str "bool")]) = .error m) ∧
    jsonLookup [("name", Json.str "a")] "type" = none ∧
    (∃ m, paramEntryFromJson (.obj [("name", Json.str "a")]) = .error m) ∧
    Param.fromJson 1 (.obj [("type", Json.str "bool")]) =
      .error (.err "missing field name") :=
  ⟨rfl, param_entry_required_fields.1 _ rfl, rfl,
   param_entry_required_fields.2.1 _ rfl,
   param_entry_required_fields.2.2.1 1 _ _ rfl⟩

end EthAbi
